import Mathlib

/-
Verification of the ASO-Copilot copy-scoring engine (packages/scoring/src/scoreCopy.ts).
Strings are embedded as lists of characters; JavaScript number arithmetic is embedded
as exact rational arithmetic; the regular-expression scans of the source are embedded
as explicit scanning functions over character lists.  Lowercasing is modelled on the
ASCII range, which covers every keyword table and every concrete input considered here.
-/

namespace ASO

/-- Characters of a string literal, the form in which concrete inputs are written. -/
def str (s : String) : List Char := s.data

/-- Decimal digit, the class matched by a backslash-d in a JavaScript regex. -/
def isDigitChar (c : Char) : Bool := '0' ≤ c && c ≤ '9'

/-- Lowercase ASCII letter. -/
def isLowerAlpha (c : Char) : Bool := 'a' ≤ c && c ≤ 'z'

/-- Uppercase ASCII letter. -/
def isUpperAlpha (c : Char) : Bool := 'A' ≤ c && c ≤ 'Z'

/-- Word character in the sense of a JavaScript regex: letters, digits and underscore. -/
def isWordCharJS (c : Char) : Bool := isLowerAlpha c || isUpperAlpha c || isDigitChar c || c == '_'

/-- Character class of WORD_PATTERN, the regex a-to-z-or-digit, one or more times. -/
def isAlnumLower (c : Char) : Bool := isLowerAlpha c || isDigitChar c

/-- Whitespace in the sense of a JavaScript regex, restricted to the ASCII range. -/
def isSpaceJS (c : Char) : Bool :=
  c == ' ' || c == '\t' || c == '\n' || c == '\r' || c == '\x0b' || c == '\x0c'

/-- Exclamation or question mark, the punctuation class of computeClarity. -/
def isPunctJS (c : Char) : Bool := c == '!' || c == '?'

/-- Character class of the tail of GENERIC_FILENAME_PATTERN: letters, digits, underscore, hyphen. -/
def isFileTailChar (c : Char) : Bool := isAlnumLower c || c == '_' || c == '-'

/-- ASCII lowercasing, the model of String.prototype.toLowerCase on the inputs considered. -/
def lowerChar (c : Char) : Char :=
  if isUpperAlpha c then Char.ofNat (c.toNat + 32) else c

/-- Lowercasing of a whole string. -/
def jsToLower (cs : List Char) : List Char := cs.map lowerChar

/-- Model of String.prototype.trim: whitespace removed from both ends. -/
def trimChars (cs : List Char) : List Char :=
  ((cs.dropWhile isSpaceJS).reverse.dropWhile isSpaceJS).reverse

/-- Auxiliary collapse of whitespace runs; the flag records whether a run is in progress. -/
def collapseAux : Bool → List Char → List Char
  | _, [] => []
  | inRun, c :: rest =>
      if isSpaceJS c then
        if inRun then collapseAux true rest else ' ' :: collapseAux true rest
      else c :: collapseAux false rest

/-- Model of normalizeText from the source: trim, collapse whitespace runs, lowercase. -/
def normalizeText (cs : List Char) : List Char :=
  jsToLower (collapseAux false (trimChars cs))

/-- Model of Array.prototype.join with a single-space separator. -/
def joinSpace : List (List Char) → List Char
  | [] => []
  | [x] => x
  | x :: y :: rest => x ++ ' ' :: joinSpace (y :: rest)

/-- Clamp on integers, the model of the clamp helper of the source. -/
def clamp (v lo hi : ℤ) : ℤ := min (max v lo) hi

/-- Clamp on rationals, used where the source clamps a fractional weighted sum. -/
def clampQ (v lo hi : ℚ) : ℚ := min (max v lo) hi

/-- Model of Math.round: floor of the argument plus one half, which rounds half up. -/
def jsRound (q : ℚ) : ℤ := ⌊q + (1 : ℚ) / 2⌋

/-- Auxiliary splitter into maximal whitespace-separated tokens, with a reversed accumulator. -/
def splitWSAux (acc : List Char) : List Char → List (List Char)
  | [] => if acc.isEmpty then [] else [acc.reverse]
  | c :: rest =>
      if isSpaceJS c then
        if acc.isEmpty then splitWSAux [] rest else acc.reverse :: splitWSAux [] rest
      else splitWSAux (c :: acc) rest

/-- Model of trim-split-filter of computeClarity: the maximal whitespace-free tokens. -/
def splitWS (cs : List Char) : List (List Char) := splitWSAux [] cs

/-- Auxiliary extractor of maximal alphanumeric runs, with a reversed accumulator. -/
def extractWordsAux (acc : List Char) : List Char → List (List Char)
  | [] => if acc.isEmpty then [] else [acc.reverse]
  | c :: rest =>
      if isAlnumLower c then extractWordsAux (c :: acc) rest
      else if acc.isEmpty then extractWordsAux [] rest
      else acc.reverse :: extractWordsAux [] rest

/-- Model of extractWords from the source: every maximal run matching WORD_PATTERN. -/
def extractWords (cs : List Char) : List (List Char) := extractWordsAux [] cs

/-- Word-character status of an optional character; the ends of the string count as non-word. -/
def wordOpt : Option Char → Bool
  | none => false
  | some c => isWordCharJS c

/-- Model of a regex word boundary: exactly one neighbouring side is a word character. -/
def jsBoundary (a b : Option Char) : Bool := wordOpt a != wordOpt b

/-- Match of a keyword at the head of cs, with word boundaries on both sides; prv is the
character immediately before the current position, none at the start of the string. -/
def kwMatchAt (kw : List Char) (prv : Option Char) (cs : List Char) : Bool :=
  kw.isPrefixOf cs && jsBoundary prv cs.head? &&
    jsBoundary (some (kw.getLastD ' ')) (cs.drop kw.length).head?

/-- Fueled scan counting non-overlapping whole-word keyword matches, the model of a global
regex scan: on a match the scan resumes after the matched region. -/
def scanCountF (kw : List Char) : Nat → Option Char → List Char → Nat
  | 0, _, _ => 0
  | _ + 1, _, [] => 0
  | fuel + 1, prv, c :: rest =>
      if kwMatchAt kw prv (c :: rest) then
        1 + scanCountF kw fuel (some (kw.getLastD c)) ((c :: rest).drop kw.length)
      else scanCountF kw fuel (some c) rest

/-- Number of whole-word matches of a keyword in a string, scanning from the start. -/
def scanCount (kw : List Char) (prv : Option Char) (cs : List Char) : Nat :=
  scanCountF kw cs.length prv cs

/-- Model of countKeywords: the total number of whole-word matches over a keyword list. -/
def countKeywords (corpus : List Char) (kws : List (List Char)) : Nat :=
  (kws.map fun kw => scanCount kw none corpus).sum

/-- Call-to-action keyword table of the source. -/
def CTA_KEYWORDS : List (List Char) :=
  [str "download", str "get", str "start", str "try", str "now", str "free", str "join",
   str "unlock"]

/-- Benefit keyword table of the source. -/
def BENEFIT_KEYWORDS : List (List Char) :=
  [str "save", str "easy", str "fast", str "improve", str "boost", str "productivity",
   str "growth"]

/-- Emotion keyword table of the source. -/
def EMOTION_KEYWORDS : List (List Char) :=
  [str "amazing", str "love", str "powerful", str "effortless", str "confident"]

/-- Category-to-keyword table of the source, in declaration order. -/
def CATEGORY_MAP : List (List Char × List (List Char)) :=
  [(str "productivity",
    [str "productivity", str "focus", str "task", str "plan", str "organize", str "workflow",
     str "efficiency"]),
   (str "finance",
    [str "budget", str "finance", str "money", str "expense", str "invest", str "saving",
     str "portfolio"]),
   (str "health",
    [str "health", str "fitness", str "workout", str "wellness", str "sleep", str "calorie",
     str "habit"]),
   (str "education",
    [str "learn", str "study", str "course", str "lesson", str "quiz", str "practice",
     str "education"]),
   (str "gaming",
    [str "game", str "level", str "battle", str "quest", str "multiplayer", str "score",
     str "leaderboard"]),
   (str "lifestyle",
    [str "lifestyle", str "routine", str "daily", str "habit", str "self-care", str "balance",
     str "home"]),
   (str "travel",
    [str "travel", str "trip", str "itinerary", str "flight", str "hotel", str "booking",
     str "destination"]),
   (str "business",
    [str "business", str "sales", str "crm", str "lead", str "pipeline", str "team",
     str "revenue"]),
   (str "utility",
    [str "tool", str "utility", str "quick", str "simple", str "manage", str "organize",
     str "optimize"]),
   (str "utilities",
    [str "tool", str "utility", str "quick", str "simple", str "manage", str "organize",
     str "optimize"])]

/-- Image file extensions of IMAGE_FILE_EXTENSION_PATTERN, with optional letters expanded. -/
def IMAGE_EXTS : List (List Char) :=
  [str "png", str "jpg", str "jpeg", str "webp", str "gif", str "bmp", str "svg", str "heic",
   str "heif", str "tif", str "tiff", str "avif"]

/-- Test whether a string ends in a dot followed by a known image extension. -/
def imageExtTest (cs : List Char) : Bool :=
  IMAGE_EXTS.any fun e => List.isSuffixOf ('.' :: e) cs

/-- Alternatives of the optional leading word of GENERIC_FILENAME_PATTERN, plus the empty choice. -/
def genericLeads : List (List Char) :=
  [str "img", str "image", str "screenshot", str "screen", str "shot", str "capture",
   str "photo", str "pic", str "ss", []]

/-- Choices of the optional single underscore or hyphen of GENERIC_FILENAME_PATTERN. -/
def sepOpts : List (List Char) := [['_'], ['-'], []]

/-- Tail of GENERIC_FILENAME_PATTERN: letters, then at least one digit, then tail characters.
The leading letter run must be maximal, since a letter can never satisfy the digit that
has to follow, so the anchored regex admits exactly this deterministic reading. -/
def genericTail (cs : List Char) : Bool :=
  match cs.dropWhile isLowerAlpha with
  | [] => false
  | c :: rest => isDigitChar c && rest.all isFileTailChar

/-- Model of an anchored test of GENERIC_FILENAME_PATTERN: some choice of lead and
separator followed by a matching tail covers the whole string. -/
def genericFilenameTest (cs : List Char) : Bool :=
  genericLeads.any fun p =>
    sepOpts.any fun d =>
      (p ++ d).isPrefixOf cs && genericTail (cs.drop (p ++ d).length)

/-- Model of isLikelyScreenshotFilename: empty is not a filename; a path separator or an
image extension or the generic numbered-filename shape marks a filename. -/
def isLikelyScreenshotFilename (value : List Char) : Bool :=
  let normalized := normalizeText value
  if normalized.isEmpty then false
  else if normalized.any fun c => c == '\\' || c == '/' then true
  else if imageExtTest normalized then true
  else genericFilenameTest normalized

/-- Input record of the engine: app name, category and the caption strings. -/
structure GenerateRequest where
  appName : List Char
  category : List Char
  screenshots : List (List Char)
deriving DecidableEq

/-- Model of buildCorpus: optionally drop filename-like captions, then join the app name,
the category and the space-joined captions with spaces and lowercase the result. -/
def buildCorpus (input : GenerateRequest) (excludeFilenameScreenshots : Bool) : List Char :=
  let screenshots :=
    if excludeFilenameScreenshots then
      input.screenshots.filter fun value => !isLikelyScreenshotFilename value
    else input.screenshots
  jsToLower (joinSpace [input.appName, input.category, joinSpace screenshots])

/-- Count of exclamation and question marks in a string. -/
def punctCount (cs : List Char) : Nat := cs.countP fun c => isPunctJS c

/-- Test for two adjacent punctuation characters, the model of the doubled-punctuation regex. -/
def hasDoublePunct : List Char → Bool
  | c1 :: c2 :: rest => (isPunctJS c1 && isPunctJS c2) || hasDoublePunct (c2 :: rest)
  | _ => false

/-- Model of computeClarity: base 10, word-count band, punctuation, doubled punctuation,
average word length and overlong words, clamped to the interval from 0 to 20. -/
def computeClarity (corpus : List Char) : ℤ :=
  let words := splitWS corpus
  let wc := words.length
  let base : ℤ := 10
  let c1 :=
    if 8 ≤ wc ∧ wc ≤ 40 then base + 6
    else if 5 ≤ wc ∧ wc ≤ 60 then base + 3
    else if wc < 5 then base - 4
    else base - 5
  let pc := punctCount corpus
  let c2 :=
    if pc = 0 then c1 + 2
    else if pc ≤ 2 then c1 + 1
    else c1 - ((pc : ℤ) - 2) * 2
  let c3 := if hasDoublePunct corpus then c2 - 2 else c2
  let totalLen := (words.map List.length).sum
  let avg : ℚ := if 0 < wc then (totalLen : ℚ) / (wc : ℚ) else 0
  let c4 := if 4 ≤ avg ∧ avg ≤ 9 then c3 + 2 else c3
  let c5 := if words.any fun w => 24 < w.length then c4 - 2 else c4
  clamp c5 0 20

/-- Breakdown record of the six sub-scores. -/
structure ScoreBreakdown where
  cta : ℤ
  benefit : ℤ
  clarity : ℤ
  numeric : ℤ
  emotion : ℤ
  category : ℤ
deriving DecidableEq

/-- Result record of the engine. -/
structure ScoreCopyResult where
  score : ℤ
  breakdown : ScoreBreakdown
  recommendation : List (List Char)
deriving DecidableEq

/-- Model of computeWeightedScore: each sub-score rescaled by its ceiling and weight,
summed, clamped to the interval from 0 to 100, and rounded. -/
def computeWeightedScore (b : ScoreBreakdown) : ℤ :=
  jsRound (clampQ
    ((b.cta : ℚ) / 20 * 20 + (b.benefit : ℚ) / 20 * 20 + (b.clarity : ℚ) / 20 * 15 +
      (b.numeric : ℚ) / 20 * 10 + (b.emotion : ℚ) / 20 * 10 + (b.category : ℚ) / 25 * 25)
    0 100)

/-- Unit and suffix alternatives of NUMERIC_PATTERN in alternation order, with each optional
plural letter expanded greedily: the longer variant is attempted first. -/
def numericSuffixAlts : List (List Char) :=
  [str "%", str "x", str "k", str "m", str "b",
   str "days", str "day", str "hrs", str "hr", str "hours", str "hour",
   str "mins", str "min", str "minutes", str "minute",
   str "sec", str "seconds", str "second",
   str "users", str "user", str "downloads", str "download",
   str "stars", str "star", str "rating"]

/-- First suffix alternative matching at the head of cs whose end lies on a word boundary. -/
def tryAlts (cs : List Char) : Option (List Char × List Char) :=
  numericSuffixAlts.findSome? fun alt =>
    if alt.isPrefixOf cs && jsBoundary (some (alt.getLastD ' ')) ((cs.drop alt.length).head?)
    then some (alt, cs.drop alt.length)
    else none

/-- Optional-whitespace-then-alternative part of the suffix group: the greedy attempt
consumes one whitespace character first, then retries without it. -/
def trySuffix (cs : List Char) : Option (List Char × List Char) :=
  (match cs with
   | c :: rest =>
       if isSpaceJS c then
         (tryAlts rest).map fun (pr : List Char × List Char) => (c :: pr.1, pr.2)
       else none
   | [] => none).orElse fun _ => tryAlts cs

/-- Continuation after the digits of a numeric match: either a suffix whose end is a word
boundary, or no suffix and a word boundary directly after the last digit. -/
def finishAfterDigits (lastC : Char) (cs : List Char) : Option (List Char × List Char) :=
  match trySuffix cs with
  | some pr => some pr
  | none => if jsBoundary (some lastC) cs.head? then some ([], cs) else none

/-- Attempt of NUMERIC_PATTERN at the current position: a word boundary, one or more
digits, an optional decimal part, and an optional unit suffix, ending on a word boundary.
Backtracking below the maximal digit runs can never succeed, because the character after
a shortened run is a digit, which no suffix alternative and no word boundary accepts; the
only live fallback, dropping a failed decimal part, is modelled explicitly. -/
def tryNumericMatch (prv : Option Char) (cs : List Char) : Option (List Char × List Char) :=
  let d := cs.takeWhile isDigitChar
  if d.isEmpty then none
  else if !jsBoundary prv cs.head? then none
  else
    let rest1 := cs.drop d.length
    let decPart : Option (List Char × List Char) :=
      match rest1 with
      | sep :: tl =>
          if sep == '.' || sep == ',' then
            let d2 := tl.takeWhile isDigitChar
            if d2.isEmpty then none else some (sep :: d2, tl.drop d2.length)
          else none
      | [] => none
    match decPart with
    | some (dec, rest2) =>
        match finishAfterDigits (dec.getLastD '0') rest2 with
        | some (suf, rest3) => some (d ++ dec ++ suf, rest3)
        | none =>
            match finishAfterDigits (d.getLastD '0') rest1 with
            | some (suf, rest3) => some (d ++ suf, rest3)
            | none => none
    | none =>
        match finishAfterDigits (d.getLastD '0') rest1 with
        | some (suf, rest3) => some (d ++ suf, rest3)
        | none => none

/-- Fueled global scan for numeric matches: at each position an attempt is made, a
successful match is recorded and the scan resumes after it. -/
def numericScanF : Nat → Option Char → List Char → List (List Char)
  | 0, _, _ => []
  | _ + 1, _, [] => []
  | fuel + 1, prv, c :: rest =>
      match tryNumericMatch prv (c :: rest) with
      | some (m, rest2) => m :: numericScanF fuel (some (m.getLastD c)) rest2
      | none => numericScanF fuel (some c) rest

/-- All matches of NUMERIC_PATTERN in a string, in scan order. -/
def numericMatches (cs : List Char) : List (List Char) := numericScanF cs.length none cs

/-- Size of the set of trimmed numeric matches, the model of the Set construction. -/
def uniqueNumericCount (cs : List Char) : Nat :=
  ((numericMatches cs).map trimChars).dedup.length

/-- Advisory message for a weak call-to-action dimension. -/
def msgCta : List Char := str "Add a clear CTA keyword (e.g. \"Get\", \"Start\", \"Try free\")"

/-- Advisory message for a weak benefit dimension. -/
def msgBenefit : List Char :=
  str "Highlight a user benefit (e.g. \"Save time\", \"Boost productivity\")"

/-- Advisory message for a weak clarity dimension. -/
def msgClarity : List Char :=
  str "Simplify copy: keep message concise and avoid excessive punctuation"

/-- Advisory message for a weak numeric dimension. -/
def msgNumeric : List Char := str "Add a numeric proof point (e.g. \"10x faster\", \"50% off\")"

/-- Advisory message for a weak emotion dimension. -/
def msgEmotion : List Char :=
  str "Use emotional language (e.g. \"Powerful\", \"Effortless\", \"Confident\")"

/-- Advisory message for a weak category dimension. -/
def msgCategory : List Char :=
  str "Align copy with your target category keywords for stronger relevance"

/-- Affirmation message used when no dimension is weak. -/
def msgGreat : List Char := str "Great copy! Keep testing variations to maintain performance."

/-- Body of scoreCopy given the resolved category keyword list, mirroring the source
line by line after the CATEGORY_MAP lookup. -/
def scoreCopyCore (input : GenerateRequest) (categoryKeywords : List (List Char)) :
    ScoreCopyResult :=
  let corpus := buildCorpus input false
  let numericCorpus := buildCorpus input true
  let words := extractWords corpus
  let totalWordCount := max words.length 1
  let ctaCount := countKeywords corpus CTA_KEYWORDS
  let cta := clamp ((ctaCount : ℤ) * 5) 0 20
  let benefitWordCount := countKeywords corpus BENEFIT_KEYWORDS
  let benefit := clamp (jsRound ((benefitWordCount : ℚ) / (totalWordCount : ℚ) * 60)) 0 20
  let clarity := computeClarity corpus
  let numeric := clamp ((uniqueNumericCount numericCorpus : ℤ) * 5) 0 20
  let emotionCount := countKeywords corpus EMOTION_KEYWORDS
  let emotion := clamp ((emotionCount : ℤ) * 5) 0 20
  let categoryMatchCount :=
    if 0 < categoryKeywords.length then countKeywords corpus categoryKeywords else 0
  let category := clamp (jsRound ((categoryMatchCount : ℚ) / (totalWordCount : ℚ) * 100)) 0 25
  let breakdown : ScoreBreakdown :=
    { cta := cta, benefit := benefit, clarity := clarity, numeric := numeric,
      emotion := emotion, category := category }
  let score := computeWeightedScore breakdown
  let advisories :=
    (if cta < 12 then [msgCta] else []) ++
    (if benefit < 12 then [msgBenefit] else []) ++
    (if clarity < 12 then [msgClarity] else []) ++
    (if numeric < 12 then [msgNumeric] else []) ++
    (if emotion < 12 then [msgEmotion] else []) ++
    (if category < 12 then [msgCategory] else [])
  let recommendation := if advisories.isEmpty then [msgGreat] else advisories
  { score := score, breakdown := breakdown, recommendation := recommendation }

/-- Model of scoreCopy with the intended lookup semantics: an absent category key
defaults to the empty keyword list. -/
def scoreCopy (input : GenerateRequest) : ScoreCopyResult :=
  scoreCopyCore input ((List.lookup (jsToLower (trimChars input.category)) CATEGORY_MAP).getD [])

/-- Result of a JavaScript property access on the CATEGORY_MAP object literal: an own key
yields its list; the inherited key constructor yields a function, on which the later
array-method call throws; the inherited key of the prototype accessor yields an object
whose length is undefined, so the keyword count stays zero; any other key is undefined
and falls back to the empty list. -/
inductive CategoryLookup
  | keywords (l : List (List Char))
  | protoCrash
  | protoObject
deriving DecidableEq

/-- Property access on CATEGORY_MAP including the prototype chain of an object literal. -/
def jsCategoryLookup (key : List Char) : CategoryLookup :=
  match List.lookup key CATEGORY_MAP with
  | some l => .keywords l
  | none =>
      if key = str "constructor" then .protoCrash
      else if key = str "__proto__" then .protoObject
      else .keywords []

/-- Model of scoreCopy under full JavaScript property-access semantics: the engine throws
when the category key resolves to the inherited constructor property. -/
def scoreCopyJS (input : GenerateRequest) : Except Unit ScoreCopyResult :=
  match jsCategoryLookup (jsToLower (trimChars input.category)) with
  | .protoCrash => .error ()
  | .protoObject => .ok (scoreCopyCore input [])
  | .keywords l => .ok (scoreCopyCore input l)

/-- Integer form of computeClarity, used to evaluate concrete inputs: the rational
average-word-length band is replaced by the equivalent integer inequalities. -/
def computeClarityE (corpus : List Char) : ℤ :=
  let words := splitWS corpus
  let wc := words.length
  let base : ℤ := 10
  let c1 :=
    if 8 ≤ wc ∧ wc ≤ 40 then base + 6
    else if 5 ≤ wc ∧ wc ≤ 60 then base + 3
    else if wc < 5 then base - 4
    else base - 5
  let pc := punctCount corpus
  let c2 :=
    if pc = 0 then c1 + 2
    else if pc ≤ 2 then c1 + 1
    else c1 - ((pc : ℤ) - 2) * 2
  let c3 := if hasDoublePunct corpus then c2 - 2 else c2
  let totalLen := (words.map List.length).sum
  let c4 := if 0 < wc ∧ 4 * wc ≤ totalLen ∧ totalLen ≤ 9 * wc then c3 + 2 else c3
  let c5 := if words.any fun w => 24 < w.length then c4 - 2 else c4
  clamp c5 0 20

/-- Integer form of the weighted aggregation, used to evaluate concrete inputs. -/
def computeWeightedScoreE (b : ScoreBreakdown) : ℤ :=
  clamp ((4 * b.cta + 4 * b.benefit + 3 * b.clarity + 2 * b.numeric + 2 * b.emotion +
      4 * b.category + 2) / 4) 0 100

/-- Integer rounding of a scaled ratio of naturals, used to evaluate concrete inputs. -/
def roundRatioE (b t k : ℕ) : ℤ := (2 * (b : ℤ) * (k : ℤ) + (t : ℤ)) / (2 * (t : ℤ))

/-- Integer form of the engine body, provably equal to scoreCopyCore and evaluable by
kernel reduction, since it avoids rational arithmetic. -/
def scoreCopyE (input : GenerateRequest) (categoryKeywords : List (List Char)) :
    ScoreCopyResult :=
  let corpus := buildCorpus input false
  let numericCorpus := buildCorpus input true
  let words := extractWords corpus
  let totalWordCount := max words.length 1
  let ctaCount := countKeywords corpus CTA_KEYWORDS
  let cta := clamp ((ctaCount : ℤ) * 5) 0 20
  let benefitWordCount := countKeywords corpus BENEFIT_KEYWORDS
  let benefit := clamp (roundRatioE benefitWordCount totalWordCount 60) 0 20
  let clarity := computeClarityE corpus
  let numeric := clamp ((uniqueNumericCount numericCorpus : ℤ) * 5) 0 20
  let emotionCount := countKeywords corpus EMOTION_KEYWORDS
  let emotion := clamp ((emotionCount : ℤ) * 5) 0 20
  let categoryMatchCount :=
    if 0 < categoryKeywords.length then countKeywords corpus categoryKeywords else 0
  let category := clamp (roundRatioE categoryMatchCount totalWordCount 100) 0 25
  let breakdown : ScoreBreakdown :=
    { cta := cta, benefit := benefit, clarity := clarity, numeric := numeric,
      emotion := emotion, category := category }
  let score := computeWeightedScoreE breakdown
  let advisories :=
    (if cta < 12 then [msgCta] else []) ++
    (if benefit < 12 then [msgBenefit] else []) ++
    (if clarity < 12 then [msgClarity] else []) ++
    (if numeric < 12 then [msgNumeric] else []) ++
    (if emotion < 12 then [msgEmotion] else []) ++
    (if category < 12 then [msgCategory] else [])
  let recommendation := if advisories.isEmpty then [msgGreat] else advisories
  { score := score, breakdown := breakdown, recommendation := recommendation }

/-- Integer form of scoreCopy with the category lookup resolved. -/
def scoreCopyEFull (input : GenerateRequest) : ScoreCopyResult :=
  scoreCopyE input ((List.lookup (jsToLower (trimChars input.category)) CATEGORY_MAP).getD [])

/-- Average word length of the corpus tokens, zero when there is no token. -/
def avgWordLength (corpus : List Char) : ℚ :=
  if 0 < (splitWS corpus).length then
    (((splitWS corpus).map List.length).sum : ℚ) / ((splitWS corpus).length : ℚ)
  else 0

/-- Corpus as the specification words it: app name, category and captions space-joined,
lowercased, and every whitespace run collapsed to a single space.  This definition follows
the specification text and is compared against buildCorpus, the definition from the source. -/
def specNormalizedCorpus (input : GenerateRequest) : List Char :=
  collapseAux false
    (jsToLower (joinSpace [input.appName, input.category, joinSpace input.screenshots]))

/-- Recommendation list as the specification describes it: one fixed advisory for each
dimension below 12 in the fixed order, and a single affirmation when none is below. -/
def specRecommendation (b : ScoreBreakdown) : List (List Char) :=
  let advisories :=
    (if b.cta < 12 then [msgCta] else []) ++
    (if b.benefit < 12 then [msgBenefit] else []) ++
    (if b.clarity < 12 then [msgClarity] else []) ++
    (if b.numeric < 12 then [msgNumeric] else []) ++
    (if b.emotion < 12 then [msgEmotion] else []) ++
    (if b.category < 12 then [msgCategory] else [])
  if advisories = [] then [msgGreat] else advisories

/-- Concrete input of the repository test: six screenshot filenames and a category
without a table entry. -/
def exNoteApp : GenerateRequest :=
  ⟨str "Note App", str "Tools",
   [str "screenshot_1.png", str "screenshot_2.png", str "screenshot_3.png",
    str "screenshot_4.png", str "screenshot_5.png", str "screenshot_6.png"]⟩

/-- Concrete input with keyword-rich app-name text and six screenshot filenames. -/
def exStuffed : GenerateRequest :=
  ⟨str "download get start try now free join unlock save easy improve boost amazing love powerful",
   str "productivity",
   [str "screenshot_1.png", str "screenshot_2.png", str "screenshot_3.png",
    str "screenshot_4.png", str "screenshot_5.png", str "screenshot_6.png"]⟩

/-- Concrete input whose captions interact with the numeric scanner at caption junctions. -/
def exPermA : GenerateRequest :=
  ⟨str "app 5 fans", str "tools",
   [str "rated 5", str "stars wow", str "p", str "q", str "r", str "t"]⟩

/-- Permutation of exPermA: the first two captions are swapped. -/
def exPermB : GenerateRequest :=
  ⟨str "app 5 fans", str "tools",
   [str "stars wow", str "rated 5", str "p", str "q", str "r", str "t"]⟩

/-- Concrete input containing the caption a-1, a digit-bearing single token. -/
def exTokenA : GenerateRequest :=
  ⟨str "app", str "tools", [str "a-1", str "p", str "q", str "r", str "s", str "t"]⟩

/-- Concrete input identical to exTokenA except that the caption a-1 is removed. -/
def exTokenB : GenerateRequest :=
  ⟨str "app", str "tools", [str "p", str "q", str "r", str "s", str "t"]⟩

/-- Concrete input whose app name contains runs of whitespace. -/
def exSpaced : GenerateRequest :=
  ⟨str "My  App", str "tools", [str "a", str "b", str "c", str "d", str "e", str "f"]⟩

/-- Concrete input whose category is the inherited object-prototype key constructor. -/
def exProto : GenerateRequest :=
  ⟨str "Focus Planner", str " Constructor ",
   [str "a", str "b", str "c", str "d", str "e", str "f"]⟩

/-- Concrete input with the literal category constructor and six filename captions. -/
def exCtor : GenerateRequest :=
  ⟨str "Focus", str "constructor",
   [str "s1.png", str "s2.png", str "s3.png", str "s4.png", str "s5.png", str "s6.png"]⟩

theorem jsRound_mono : Monotone jsRound := by
  intro a b hab
  exact Int.floor_le_floor (by linarith)

theorem jsRound_zero : jsRound 0 = 0 := by
  simp only [jsRound, zero_add]
  rw [Int.floor_eq_zero_iff]
  constructor <;> norm_num

theorem jsRound_hundred : jsRound 100 = 100 := by
  have h : (100 : ℚ) + 1 / 2 = ((201 : ℤ) : ℚ) / ((2 : ℕ) : ℚ) := by norm_num
  rw [jsRound, h, Rat.floor_intCast_div_natCast]
  decide

theorem jsRound_clampQ (q : ℚ) : jsRound (clampQ q 0 100) = clamp (jsRound q) 0 100 := by
  simp only [clampQ, clamp]
  rw [jsRound_mono.map_min, jsRound_mono.map_max, jsRound_zero, jsRound_hundred]

theorem jsRound_div_four (S : ℤ) : jsRound ((S : ℚ) / 4) = (S + 2) / 4 := by
  have h : (S : ℚ) / 4 + 1 / 2 = ((S + 2 : ℤ) : ℚ) / ((4 : ℕ) : ℚ) := by push_cast; ring
  rw [jsRound, h, Rat.floor_intCast_div_natCast]
  norm_num

theorem roundRatio60_eq (b t : ℕ) :
    jsRound ((b : ℚ) / (t : ℚ) * 60) = roundRatioE b t 60 := by
  rcases Nat.eq_zero_or_pos t with ht | ht
  · subst ht
    simp only [roundRatioE, Nat.cast_zero, div_zero, zero_mul, jsRound_zero, mul_zero,
      Int.ediv_zero, Nat.cast_ofNat, add_zero]
  · have htQ : ((t : ℚ)) ≠ 0 := by positivity
    have h : (b : ℚ) / (t : ℚ) * 60 + 1 / 2 =
        ((2 * (b : ℤ) * 60 + (t : ℤ) : ℤ) : ℚ) / ((2 * t : ℕ) : ℚ) := by
      push_cast
      field_simp
      ring
    rw [jsRound, h, Rat.floor_intCast_div_natCast, roundRatioE]
    push_cast
    norm_num

theorem roundRatio100_eq (b t : ℕ) :
    jsRound ((b : ℚ) / (t : ℚ) * 100) = roundRatioE b t 100 := by
  rcases Nat.eq_zero_or_pos t with ht | ht
  · subst ht
    simp only [roundRatioE, Nat.cast_zero, div_zero, zero_mul, jsRound_zero, mul_zero,
      Int.ediv_zero, Nat.cast_ofNat, add_zero]
  · have htQ : ((t : ℚ)) ≠ 0 := by positivity
    have h : (b : ℚ) / (t : ℚ) * 100 + 1 / 2 =
        ((2 * (b : ℤ) * 100 + (t : ℤ) : ℤ) : ℚ) / ((2 * t : ℕ) : ℚ) := by
      push_cast
      field_simp
      ring
    rw [jsRound, h, Rat.floor_intCast_div_natCast, roundRatioE]
    push_cast
    norm_num

theorem computeWeightedScore_exec (b : ScoreBreakdown) :
    computeWeightedScore b = computeWeightedScoreE b := by
  have hW : (b.cta : ℚ) / 20 * 20 + (b.benefit : ℚ) / 20 * 20 + (b.clarity : ℚ) / 20 * 15 +
      (b.numeric : ℚ) / 20 * 10 + (b.emotion : ℚ) / 20 * 10 + (b.category : ℚ) / 25 * 25 =
      ((4 * b.cta + 4 * b.benefit + 3 * b.clarity + 2 * b.numeric + 2 * b.emotion +
        4 * b.category : ℤ) : ℚ) / 4 := by
    push_cast
    ring
  rw [computeWeightedScore, hW, jsRound_clampQ, jsRound_div_four, computeWeightedScoreE]

theorem avgBand (totalLen wc : ℕ) :
    (4 ≤ (if 0 < wc then (totalLen : ℚ) / (wc : ℚ) else 0) ∧
      (if 0 < wc then (totalLen : ℚ) / (wc : ℚ) else 0) ≤ 9) ↔
    (0 < wc ∧ 4 * wc ≤ totalLen ∧ totalLen ≤ 9 * wc) := by
  rcases Nat.eq_zero_or_pos wc with hw | hw
  · subst hw
    simp only [Nat.lt_irrefl, if_neg, false_and, iff_false]
    norm_num
  · have hwQ : (0 : ℚ) < (wc : ℚ) := by positivity
    rw [if_pos hw, le_div_iff₀ hwQ, div_le_iff₀ hwQ]
    constructor
    · rintro ⟨h1, h2⟩
      refine ⟨hw, ?_, ?_⟩
      · exact_mod_cast h1
      · exact_mod_cast h2
    · rintro ⟨-, h1, h2⟩
      constructor
      · exact_mod_cast h1
      · exact_mod_cast h2

theorem computeClarity_exec (corpus : List Char) :
    computeClarity corpus = computeClarityE corpus := by
  simp only [computeClarity, computeClarityE, avgBand]

theorem scoreCopyCore_exec (input : GenerateRequest) (kws : List (List Char)) :
    scoreCopyCore input kws = scoreCopyE input kws := by
  simp only [scoreCopyCore, scoreCopyE, roundRatio60_eq, roundRatio100_eq,
    computeClarity_exec, computeWeightedScore_exec]

theorem scoreCopy_exec (input : GenerateRequest) : scoreCopy input = scoreCopyEFull input := by
  simp only [scoreCopy, scoreCopyEFull, scoreCopyCore_exec]

theorem clamp_lower {lo hi : ℤ} (v : ℤ) (h : lo ≤ hi) : lo ≤ clamp v lo hi :=
  le_min (le_max_right v lo) h

theorem clamp_upper (v lo hi : ℤ) : clamp v lo hi ≤ hi := min_le_right _ _

theorem computeWeightedScore_bounds (b : ScoreBreakdown) :
    0 ≤ computeWeightedScore b ∧ computeWeightedScore b ≤ 100 := by
  rw [computeWeightedScore, jsRound_clampQ]
  exact ⟨clamp_lower _ (by norm_num), clamp_upper _ _ _⟩

theorem computeClarity_bounds (corpus : List Char) :
    0 ≤ computeClarity corpus ∧ computeClarity corpus ≤ 20 := by
  simp only [computeClarity]
  exact ⟨clamp_lower _ (by norm_num), clamp_upper _ _ _⟩

/-- C1: for every input, the cta, benefit, clarity, numeric and emotion sub-scores lie in
the interval from 0 to 20, the category sub-score lies in the interval from 0 to 25, and
the returned score is an integer between 0 and 100. -/
theorem claim1_bounds (input : GenerateRequest) :
    (0 ≤ (scoreCopy input).breakdown.cta ∧ (scoreCopy input).breakdown.cta ≤ 20) ∧
    (0 ≤ (scoreCopy input).breakdown.benefit ∧ (scoreCopy input).breakdown.benefit ≤ 20) ∧
    (0 ≤ (scoreCopy input).breakdown.clarity ∧ (scoreCopy input).breakdown.clarity ≤ 20) ∧
    (0 ≤ (scoreCopy input).breakdown.numeric ∧ (scoreCopy input).breakdown.numeric ≤ 20) ∧
    (0 ≤ (scoreCopy input).breakdown.emotion ∧ (scoreCopy input).breakdown.emotion ≤ 20) ∧
    (0 ≤ (scoreCopy input).breakdown.category ∧ (scoreCopy input).breakdown.category ≤ 25) ∧
    (0 ≤ (scoreCopy input).score ∧ (scoreCopy input).score ≤ 100) := by
  simp only [scoreCopy, scoreCopyCore]
  refine ⟨⟨clamp_lower _ (by norm_num), clamp_upper _ _ _⟩,
    ⟨clamp_lower _ (by norm_num), clamp_upper _ _ _⟩,
    computeClarity_bounds _,
    ⟨clamp_lower _ (by norm_num), clamp_upper _ _ _⟩,
    ⟨clamp_lower _ (by norm_num), clamp_upper _ _ _⟩,
    ⟨clamp_lower _ (by norm_num), clamp_upper _ _ _⟩,
    computeWeightedScore_bounds _⟩

theorem jsToLower_append (a b : List Char) :
    jsToLower (a ++ b) = jsToLower a ++ jsToLower b :=
  List.map_append lowerChar a b

theorem jsToLower_joinSpace :
    ∀ l : List (List Char), jsToLower (joinSpace l) = joinSpace (l.map jsToLower)
  | [] => rfl
  | [x] => rfl
  | x :: y :: rest => by
      rw [joinSpace, jsToLower_append, List.map_cons, List.map_cons, joinSpace]
      have ih := jsToLower_joinSpace (y :: rest)
      rw [List.map_cons] at ih
      simp only [jsToLower, List.map_cons] at ih ⊢
      rw [← ih]
      rfl

theorem corpus_decomp (input : GenerateRequest) :
    buildCorpus input false =
      jsToLower input.appName ++ ' ' ::
        (jsToLower input.category ++ ' ' :: joinSpace (input.screenshots.map jsToLower)) := by
  simp only [buildCorpus, Bool.false_eq_true, if_neg, joinSpace, jsToLower_append]
  rw [← jsToLower_joinSpace]
  simp only [jsToLower, List.map_cons, List.map_append]
  rfl

/-- C3 counterexample: at an input whose app name holds a doubled space, the corpus from
the source differs from the normalized whitespace-collapsed corpus of the specification. -/
theorem claim3_cx : buildCorpus exSpaced false ≠ specNormalizedCorpus exSpaced := by decide

/-- C3 as amended: the corpus equals the space-joined concatenation of app name, category
and captions, lowercased, with all whitespace preserved rather than collapsed. -/
theorem claim3_amended (input : GenerateRequest) :
    buildCorpus input false =
      jsToLower input.appName ++ ' ' ::
        (jsToLower input.category ++ ' ' :: joinSpace (input.screenshots.map jsToLower)) :=
  corpus_decomp input

set_option maxHeartbeats 1600000 in
/-- C4: for every corpus, the clarity sub-score is the base 10 plus the independent
word-count band, punctuation, doubled punctuation, average-word-length and overlong-word
adjustments, the sum clamped to the interval from 0 to 20. -/
theorem claim4_clarity (corpus : List Char) :
    computeClarity corpus =
      clamp (10 +
        (if 8 ≤ (splitWS corpus).length ∧ (splitWS corpus).length ≤ 40 then (6 : ℤ)
         else if 5 ≤ (splitWS corpus).length ∧ (splitWS corpus).length ≤ 60 then 3
         else if (splitWS corpus).length < 5 then -4 else -5) +
        (if punctCount corpus = 0 then 2
         else if punctCount corpus ≤ 2 then 1
         else -(((punctCount corpus : ℤ) - 2) * 2)) +
        (if hasDoublePunct corpus then -2 else 0) +
        (if 4 ≤ avgWordLength corpus ∧ avgWordLength corpus ≤ 9 then 2 else 0) +
        (if (splitWS corpus).any (fun w => 24 < w.length) then -2 else 0)) 0 20 := by
  simp only [computeClarity, avgWordLength, clamp]
  split_ifs <;> omega

theorem ite_fallback_ne_nil {α : Type} (l d : List α) (hd : d ≠ []) [Decidable (l = [])] :
    (if l = [] then d else l) ≠ [] := by
  split
  · exact hd
  · assumption

theorem specRecommendation_ne_nil (b : ScoreBreakdown) : specRecommendation b ≠ [] := by
  simp only [specRecommendation]
  exact ite_fallback_ne_nil _ _ (by simp)

theorem scoreCopy_cta (input : GenerateRequest) :
    (scoreCopy input).breakdown.cta =
      clamp ((countKeywords (buildCorpus input false) CTA_KEYWORDS : ℤ) * 5) 0 20 := rfl

theorem scoreCopy_benefit (input : GenerateRequest) :
    (scoreCopy input).breakdown.benefit =
      clamp (jsRound ((countKeywords (buildCorpus input false) BENEFIT_KEYWORDS : ℚ) /
        ((max (extractWords (buildCorpus input false)).length 1 : ℕ) : ℚ) * 60)) 0 20 := rfl

theorem scoreCopy_clarity (input : GenerateRequest) :
    (scoreCopy input).breakdown.clarity = computeClarity (buildCorpus input false) := rfl

theorem scoreCopy_numeric (input : GenerateRequest) :
    (scoreCopy input).breakdown.numeric =
      clamp ((uniqueNumericCount (buildCorpus input true) : ℤ) * 5) 0 20 := rfl

theorem scoreCopy_emotion (input : GenerateRequest) :
    (scoreCopy input).breakdown.emotion =
      clamp ((countKeywords (buildCorpus input false) EMOTION_KEYWORDS : ℤ) * 5) 0 20 := rfl

theorem scoreCopy_category (input : GenerateRequest) :
    (scoreCopy input).breakdown.category =
      clamp (jsRound
        (((if 0 < ((List.lookup (jsToLower (trimChars input.category)) CATEGORY_MAP).getD
              []).length then
            countKeywords (buildCorpus input false)
              ((List.lookup (jsToLower (trimChars input.category)) CATEGORY_MAP).getD [])
          else 0 : ℕ) : ℚ) /
          ((max (extractWords (buildCorpus input false)).length 1 : ℕ) : ℚ) * 100)) 0 25 := rfl

theorem scoreCopy_recommendation_spec (input : GenerateRequest) :
    (scoreCopy input).recommendation = specRecommendation (scoreCopy input).breakdown := by
  simp only [scoreCopy, scoreCopyCore, specRecommendation, List.isEmpty_iff]

/-- C6: for every input, the recommendation list is exactly one fixed advisory message for
each dimension below 12, in the fixed order cta, benefit, clarity, numeric, emotion,
category, or the single affirmation message when no dimension is below 12, and is never
empty. -/
theorem claim6_recommendations (input : GenerateRequest) :
    (scoreCopy input).recommendation = specRecommendation (scoreCopy input).breakdown ∧
      (scoreCopy input).recommendation ≠ [] :=
  ⟨scoreCopy_recommendation_spec input,
    scoreCopy_recommendation_spec input ▸ specRecommendation_ne_nil _⟩

theorem char_le_iff_toNat {a b : Char} : a ≤ b ↔ a.toNat ≤ b.toNat := Iff.rfl

theorem isDigitChar_iff (c : Char) : isDigitChar c = true ↔ 48 ≤ c.toNat ∧ c.toNat ≤ 57 := by
  simp only [isDigitChar, Bool.and_eq_true, decide_eq_true_eq, char_le_iff_toNat]
  have e1 : Char.toNat '0' = 48 := rfl
  have e2 : Char.toNat '9' = 57 := rfl
  rw [e1, e2]

theorem isUpperAlpha_iff (c : Char) : isUpperAlpha c = true ↔ 65 ≤ c.toNat ∧ c.toNat ≤ 90 := by
  simp only [isUpperAlpha, Bool.and_eq_true, decide_eq_true_eq, char_le_iff_toNat]
  have e1 : Char.toNat 'A' = 65 := rfl
  have e2 : Char.toNat 'Z' = 90 := rfl
  rw [e1, e2]

theorem isDigitChar_lowerChar (c : Char) : isDigitChar (lowerChar c) = isDigitChar c := by
  by_cases h : isUpperAlpha c = true
  · rw [lowerChar, if_pos h]
    obtain ⟨h1, h2⟩ := (isUpperAlpha_iff c).mp h
    have hv : (c.toNat + 32).isValidChar := Or.inl (by omega)
    have ht : (Char.ofNat (c.toNat + 32)).toNat = c.toNat + 32 := by
      simp only [Char.ofNat, dif_pos hv]
      rfl
    have l : isDigitChar (Char.ofNat (c.toNat + 32)) = false := by
      rw [Bool.eq_false_iff]
      intro hd
      obtain ⟨g1, g2⟩ := (isDigitChar_iff _).mp hd
      omega
    have r : isDigitChar c = false := by
      rw [Bool.eq_false_iff]
      intro hd
      obtain ⟨g1, g2⟩ := (isDigitChar_iff _).mp hd
      omega
    rw [l, r]
  · rw [lowerChar, if_neg h]

theorem jsToLower_noDigit (l : List Char) (h : l.all (fun c => !isDigitChar c) = true) :
    (jsToLower l).all (fun c => !isDigitChar c) = true := by
  simp only [jsToLower, List.all_map]
  have : ((fun c => !isDigitChar c) ∘ lowerChar) = fun c => !isDigitChar c := by
    funext c
    simp [Function.comp, isDigitChar_lowerChar]
  rw [this]
  exact h

theorem numericScanF_nil_of_noDigit :
    ∀ (fuel : Nat) (prv : Option Char) (cs : List Char),
      cs.all (fun c => !isDigitChar c) = true → numericScanF fuel prv cs = []
  | 0, _, _, _ => rfl
  | _ + 1, _, [], _ => rfl
  | fuel + 1, prv, c :: rest, h => by
      rw [List.all_cons, Bool.and_eq_true] at h
      obtain ⟨hc, hrest⟩ := h
      have hcd : isDigitChar c = false := by
        cases hd : isDigitChar c
        · rfl
        · rw [hd] at hc
          exact absurd hc (by decide)
      have hnone : tryNumericMatch prv (c :: rest) = none := by
        rw [tryNumericMatch]
        simp only [List.takeWhile_cons, hcd]
        rfl
      rw [numericScanF, hnone]
      exact numericScanF_nil_of_noDigit fuel (some c) rest hrest

theorem numericMatches_nil_of_noDigit (cs : List Char)
    (h : cs.all (fun c => !isDigitChar c) = true) : numericMatches cs = [] :=
  numericScanF_nil_of_noDigit cs.length none cs h

theorem numericCorpus_all_filtered (input : GenerateRequest)
    (hcap : input.screenshots.all isLikelyScreenshotFilename = true) :
    buildCorpus input true =
      jsToLower (input.appName ++ ' ' :: (input.category ++ [' '])) := by
  have hfilter : input.screenshots.filter (fun v => !isLikelyScreenshotFilename v) = [] := by
    rw [List.filter_eq_nil_iff]
    intro a ha
    rw [List.all_eq_true] at hcap
    simp [hcap a ha]
  simp only [buildCorpus, if_pos]
  rw [hfilter]
  rfl

theorem mem_specRecommendation_of_numeric_lt (b : ScoreBreakdown) (h : b.numeric < 12) :
    msgNumeric ∈ specRecommendation b := by
  simp only [specRecommendation]
  rw [if_neg]
  · simp [List.mem_append, if_pos h]
  · intro heq
    rw [if_pos h] at heq
    simp [List.append_eq_nil] at heq

set_option maxRecDepth 100000 in
/-- C7 counterexample: an input whose six captions are the generic numbered screenshot
filenames of the claim and whose app name and category hold no digit, yet whose overall
score exceeds 30, because keyword-rich app-name text drives the other dimensions. -/
theorem claim7_cx :
    exStuffed.screenshots.all isLikelyScreenshotFilename = true ∧
    exStuffed.appName.all (fun c => !isDigitChar c) = true ∧
    exStuffed.category.all (fun c => !isDigitChar c) = true ∧
    ¬(scoreCopy exStuffed).score ≤ 30 := by
  refine ⟨by decide, by decide, by decide, ?_⟩
  rw [scoreCopy_exec]
  decide

/-- C7 as amended: for every input whose captions are all classified filename-like and
whose app name and category hold no digit, the numeric sub-score is at most 5 and the
recommendation list includes the numeric-proof-point suggestion; the bound of 30 on the
overall score does not hold in general. -/
theorem claim7_amended (input : GenerateRequest)
    (hcap : input.screenshots.all isLikelyScreenshotFilename = true)
    (hname : input.appName.all (fun c => !isDigitChar c) = true)
    (hcat : input.category.all (fun c => !isDigitChar c) = true) :
    (scoreCopy input).breakdown.numeric ≤ 5 ∧
      msgNumeric ∈ (scoreCopy input).recommendation := by
  have hnodigit : (buildCorpus input true).all (fun c => !isDigitChar c) = true := by
    rw [numericCorpus_all_filtered input hcap]
    apply jsToLower_noDigit
    simp only [List.all_append, List.all_cons, Bool.and_eq_true]
    exact ⟨hname, by decide, hcat, by decide⟩
  have hunique : uniqueNumericCount (buildCorpus input true) = 0 := by
    rw [uniqueNumericCount, numericMatches_nil_of_noDigit _ hnodigit]
    rfl
  have hnum : (scoreCopy input).breakdown.numeric = 0 := by
    rw [scoreCopy_numeric, hunique]
    decide
  constructor
  · omega
  · rw [scoreCopy_recommendation_spec]
    exact mem_specRecommendation_of_numeric_lt _ (by omega)

/-- C7 witness: the amended statement instantiated at the concrete input of the
repository test. -/
theorem claim7_witness :
    (scoreCopy exNoteApp).breakdown.numeric ≤ 5 ∧
      msgNumeric ∈ (scoreCopy exNoteApp).recommendation :=
  claim7_amended exNoteApp (by decide) (by decide) (by decide)

theorem scoreCopyJS_ok (input : GenerateRequest)
    (h : jsToLower (trimChars input.category) ≠ str "constructor") :
    scoreCopyJS input = Except.ok (scoreCopy input) := by
  rw [scoreCopyJS, scoreCopy, jsCategoryLookup]
  cases hl : List.lookup (jsToLower (trimChars input.category)) CATEGORY_MAP with
  | some l => rfl
  | none =>
      rw [if_neg h]
      by_cases hp : jsToLower (trimChars input.category) = str "__proto__"
      · rw [if_pos hp]
        rfl
      · rw [if_neg hp]
        rfl

/-- C5 code bug: the category Constructor, trimmed and lowercased, has no entry in the
fixed category table, so the claim requires a category sub-score of exactly 0, but under
JavaScript property-access semantics the lookup resolves the inherited constructor
property and the engine throws instead of producing any sub-score. -/
theorem claim5_bug :
    List.lookup (jsToLower (trimChars exProto.category)) CATEGORY_MAP = none ∧
      scoreCopyJS exProto = Except.error () := by
  exact ⟨by decide, by rfl⟩

/-- C9 code bug: the claim asserts the engine is total and never throws, but at the
category constructor the engine throws; for every other category key the engine is total
and the word-count denominator is guarded away from zero. -/
theorem claim9_bug :
    scoreCopyJS exCtor = Except.error () ∧
      (∀ input : GenerateRequest,
        1 ≤ max (extractWords (buildCorpus input false)).length 1) := by
  refine ⟨by rfl, fun input => ?_⟩
  exact le_max_right _ _

/-- C10 counterexample: the caption a-1 normalizes to a single token made of letters,
digits, underscores and hyphens and holds a digit, yet it does not match the generic
numbered-filename pattern, is not classified filename-like, and contributes 5 points to
the numeric sub-score rather than nothing. -/
theorem claim10_cx :
    (normalizeText (str "a-1")).all isFileTailChar = true ∧
    (normalizeText (str "a-1")).any isDigitChar = true ∧
    normalizeText (str "a-1") ≠ [] ∧
    isLikelyScreenshotFilename (str "a-1") = false ∧
    (scoreCopy exTokenA).breakdown.numeric = 5 ∧
    (scoreCopy exTokenB).breakdown.numeric = 0 := by
  refine ⟨by decide, by decide, by decide, by decide, ?_, ?_⟩ <;>
    · rw [scoreCopy_exec]
      decide

/-- C10 as amended: any caption whose normalization is nonempty and matches the generic
numbered-filename pattern, an optional generic lead, an optional single underscore or
hyphen, letters, then at least one digit followed by letters, digits, underscores or
hyphens, is classified filename-like, is excluded from the numeric-detection corpus, and
leaves the numeric sub-score unchanged, even when it is quantitative marketing text. -/
theorem claim10_amended (v : List Char) (h1 : normalizeText v ≠ [])
    (h2 : genericFilenameTest (normalizeText v) = true) (n cat : List Char)
    (ss : List (List Char)) :
    isLikelyScreenshotFilename v = true ∧
    buildCorpus ⟨n, cat, v :: ss⟩ true = buildCorpus ⟨n, cat, ss⟩ true ∧
    (scoreCopy ⟨n, cat, v :: ss⟩).breakdown.numeric =
      (scoreCopy ⟨n, cat, ss⟩).breakdown.numeric := by
  have hne : (normalizeText v).isEmpty = false := by
    rw [List.isEmpty_eq_false_iff_exists_mem]
    cases hv : normalizeText v with
    | nil => exact absurd hv h1
    | cons c rest => exact ⟨c, by simp⟩
  have hlik : isLikelyScreenshotFilename v = true := by
    rw [isLikelyScreenshotFilename]
    simp only [hne, Bool.false_eq_true, if_false]
    split
    · rfl
    · split
      · rfl
      · exact h2
  have hcorp : buildCorpus ⟨n, cat, v :: ss⟩ true = buildCorpus ⟨n, cat, ss⟩ true := by
    simp only [buildCorpus, if_pos, List.filter_cons, hlik, Bool.not_true,
      Bool.false_eq_true, if_false]
  refine ⟨hlik, hcorp, ?_⟩
  rw [scoreCopy_numeric, scoreCopy_numeric, hcorp]

/-- C10 witness: the amended statement instantiated at the caption 100k. -/
theorem claim10_witness :
    isLikelyScreenshotFilename (str "100k") = true ∧
    buildCorpus ⟨str "a", str "b", [str "100k", str "c"]⟩ true =
      buildCorpus ⟨str "a", str "b", [str "c"]⟩ true ∧
    (scoreCopy ⟨str "a", str "b", [str "100k", str "c"]⟩).breakdown.numeric =
      (scoreCopy ⟨str "a", str "b", [str "c"]⟩).breakdown.numeric :=
  claim10_amended (str "100k") (by decide) (by decide) (str "a") (str "b") [str "c"]

/-- C2: for every input, the returned score equals the breakdown combined by the fixed
weights, each sub-score divided by its ceiling, multiplied by its weight, the six
products summed, clamped to the interval from 0 to 100 and rounded to the nearest
integer. -/
theorem claim2_weighted (input : GenerateRequest) :
    (scoreCopy input).score =
      jsRound (clampQ
        (((scoreCopy input).breakdown.cta : ℚ) / 20 * 20 +
          ((scoreCopy input).breakdown.benefit : ℚ) / 20 * 20 +
          ((scoreCopy input).breakdown.clarity : ℚ) / 20 * 15 +
          ((scoreCopy input).breakdown.numeric : ℚ) / 20 * 10 +
          ((scoreCopy input).breakdown.emotion : ℚ) / 20 * 10 +
          ((scoreCopy input).breakdown.category : ℚ) / 25 * 25)
        0 100) := by
  simp only [scoreCopy, scoreCopyCore, computeWeightedScore]

theorem scanCountF_zero_fuel (kw : List Char) (prv : Option Char) (cs : List Char) :
    scanCountF kw 0 prv cs = 0 := rfl

theorem scanCountF_nil (kw : List Char) (f : ℕ) (prv : Option Char) :
    scanCountF kw f prv [] = 0 := by
  cases f <;> rfl

theorem kw_length_pos {kw : List Char} (hkw : kw ≠ []) : 1 ≤ kw.length :=
  Nat.succ_le_of_lt (List.length_pos.mpr hkw)

theorem scanCountF_congr (kw : List Char) (hkw : kw ≠ []) :
    ∀ (n : ℕ) (cs : List Char), cs.length ≤ n → ∀ (f : ℕ), cs.length ≤ f →
      ∀ (prv : Option Char), scanCountF kw f prv cs = scanCountF kw cs.length prv cs := by
  intro n
  induction n with
  | zero =>
      intro cs hcs f hf prv
      have hnil : cs = [] := List.length_eq_zero.mp (Nat.le_zero.mp hcs)
      subst hnil
      rw [scanCountF_nil]
      rfl
  | succ n ih =>
      intro cs hcs f hf prv
      cases cs with
      | nil =>
          rw [scanCountF_nil]
          rfl
      | cons c rest =>
          cases f with
          | zero => simp at hf
          | succ f =>
              simp only [List.length_cons] at hcs hf ⊢
              rw [scanCountF, scanCountF]
              have hrest_n : rest.length ≤ n := Nat.le_of_succ_le_succ hcs
              have hrest_f : rest.length ≤ f := Nat.le_of_succ_le_succ hf
              by_cases hm : kwMatchAt kw prv (c :: rest) = true
              · rw [if_pos hm, if_pos hm]
                congr 1
                have hdl : ((c :: rest).drop kw.length).length ≤ rest.length := by
                  rw [List.length_drop, List.length_cons]
                  have := kw_length_pos hkw
                  omega
                rw [ih _ (hdl.trans hrest_n) f (hdl.trans hrest_f) _,
                  ih _ (hdl.trans hrest_n) rest.length hdl _]
              · rw [if_neg hm, if_neg hm]
                rw [ih rest hrest_n f hrest_f _, ih rest hrest_n rest.length le_rfl _]

theorem scanCount_nil (kw : List Char) (prv : Option Char) : scanCount kw prv [] = 0 := rfl

theorem scanCount_cons (kw : List Char) (hkw : kw ≠ []) (prv : Option Char) (c : Char)
    (rest : List Char) :
    scanCount kw prv (c :: rest) =
      if kwMatchAt kw prv (c :: rest) = true then
        1 + scanCount kw (some (kw.getLastD c)) ((c :: rest).drop kw.length)
      else scanCount kw (some c) rest := by
  rw [scanCount]
  simp only [List.length_cons]
  rw [scanCountF]
  by_cases hm : kwMatchAt kw prv (c :: rest) = true
  · rw [if_pos hm, if_pos hm]
    congr 1
    have hdl : ((c :: rest).drop kw.length).length ≤ rest.length := by
      rw [List.length_drop, List.length_cons]
      have := kw_length_pos hkw
      omega
    rw [scanCount]
    exact scanCountF_congr kw hkw rest.length _ hdl rest.length hdl _
  · rw [if_neg hm, if_neg hm]
    rfl

theorem isPrefixOf_append_sep :
    ∀ (kw s t : List Char), ' ' ∉ kw →
      kw.isPrefixOf (s ++ ' ' :: t) = kw.isPrefixOf s
  | [], s, t, _ => by cases s <;> rfl
  | k :: ks, [], t, hsp => by
      have hk : (k == ' ') = false :=
        beq_eq_false_iff_ne.mpr fun h => hsp (h ▸ List.mem_cons_self k ks)
      show ((k == ' ') && ks.isPrefixOf t) = false
      rw [hk, Bool.false_and]
  | k :: ks, a :: s', t, hsp => by
      show ((k == a) && ks.isPrefixOf (s' ++ ' ' :: t)) = ((k == a) && ks.isPrefixOf s')
      rw [isPrefixOf_append_sep ks s' t fun h => hsp (List.mem_cons_of_mem k h)]

theorem wordOpt_head_drop (x b : List Char) (k : ℕ) (hk : k ≤ x.length) :
    wordOpt ((x ++ ' ' :: b).drop k).head? = wordOpt (x.drop k).head? := by
  rw [List.drop_append_of_le_length hk]
  cases h : x.drop k with
  | nil => rfl
  | cons y ys => rfl

theorem kwMatchAt_append_sep (kw : List Char) (hsp : ' ' ∉ kw)
    (prv : Option Char) (c : Char) (a b : List Char) :
    kwMatchAt kw prv (c :: (a ++ ' ' :: b)) = kwMatchAt kw prv (c :: a) := by
  rw [kwMatchAt, kwMatchAt]
  have hpre : kw.isPrefixOf (c :: (a ++ ' ' :: b)) = kw.isPrefixOf (c :: a) := by
    have := isPrefixOf_append_sep kw (c :: a) b hsp
    simpa [List.cons_append] using this
  rw [hpre]
  cases hp : kw.isPrefixOf (c :: a) with
  | false => rw [Bool.false_and, Bool.false_and, Bool.false_and, Bool.false_and]
  | true =>
      have hlen : kw.length ≤ (c :: a).length :=
        (List.isPrefixOf_iff_prefix.mp hp).length_le
      have hb : wordOpt ((c :: (a ++ ' ' :: b)).drop kw.length).head? =
          wordOpt ((c :: a).drop kw.length).head? := by
        have := wordOpt_head_drop (c :: a) b kw.length hlen
        simpa [List.cons_append] using this
      simp only [List.head?_cons, jsBoundary]
      rw [hb]

theorem kwMatchAt_space (kw : List Char) (hkw : kw ≠ []) (hsp : ' ' ∉ kw)
    (prv : Option Char) (b : List Char) : kwMatchAt kw prv (' ' :: b) = false := by
  cases kw with
  | nil => exact absurd rfl hkw
  | cons k ks =>
      have hk : (k == ' ') = false :=
        beq_eq_false_iff_ne.mpr fun h => hsp (h ▸ List.mem_cons_self k ks)
      rw [kwMatchAt]
      have hfp : (k :: ks).isPrefixOf (' ' :: b) = false := by
        show ((k == ' ') && ks.isPrefixOf b) = false
        rw [hk, Bool.false_and]
      rw [hfp, Bool.false_and, Bool.false_and]

theorem scanCount_space (kw : List Char) (hkw : kw ≠ []) (hsp : ' ' ∉ kw)
    (prv : Option Char) (b : List Char) :
    scanCount kw prv (' ' :: b) = scanCount kw (some ' ') b := by
  rw [scanCount_cons kw hkw, kwMatchAt_space kw hkw hsp]
  simp

theorem scanCount_append_sep (kw : List Char) (hkw : kw ≠ []) (hsp : ' ' ∉ kw) :
    ∀ (n : ℕ) (a : List Char), a.length ≤ n → ∀ (prv : Option Char) (b : List Char),
      scanCount kw prv (a ++ ' ' :: b) = scanCount kw prv a + scanCount kw (some ' ') b := by
  intro n
  induction n with
  | zero =>
      intro a ha prv b
      have hnil : a = [] := List.length_eq_zero.mp (Nat.le_zero.mp ha)
      subst hnil
      rw [List.nil_append, scanCount_space kw hkw hsp, scanCount_nil, Nat.zero_add]
  | succ n ih =>
      intro a ha prv b
      cases a with
      | nil => rw [List.nil_append, scanCount_space kw hkw hsp, scanCount_nil, Nat.zero_add]
      | cons c a' =>
          rw [List.cons_append, scanCount_cons kw hkw prv c (a' ++ ' ' :: b),
            scanCount_cons kw hkw prv c a']
          have hmeq : kwMatchAt kw prv (c :: (a' ++ ' ' :: b)) = kwMatchAt kw prv (c :: a') :=
            kwMatchAt_append_sep kw hsp prv c a' b
          rw [hmeq]
          simp only [List.length_cons] at ha
          have ha' : a'.length ≤ n := Nat.le_of_succ_le_succ ha
          by_cases hm : kwMatchAt kw prv (c :: a') = true
          · rw [if_pos hm, if_pos hm]
            have hlen : kw.length ≤ (c :: a').length := by
              rw [kwMatchAt, Bool.and_eq_true, Bool.and_eq_true] at hm
              exact (List.isPrefixOf_iff_prefix.mp hm.1.1).length_le
            have hdrop : (c :: (a' ++ ' ' :: b)).drop kw.length =
                ((c :: a').drop kw.length) ++ ' ' :: b := by
              rw [← List.cons_append, List.drop_append_of_le_length hlen]
            rw [hdrop]
            have hdl : ((c :: a').drop kw.length).length ≤ n := by
              rw [List.length_drop, List.length_cons]
              have := kw_length_pos hkw
              omega
            rw [ih _ hdl _ b]
            omega
          · rw [if_neg hm, if_neg hm]
            exact ih a' ha' (some c) b

theorem scanCount_sep (kw : List Char) (hkw : kw ≠ []) (hsp : ' ' ∉ kw)
    (a b : List Char) (prv : Option Char) :
    scanCount kw prv (a ++ ' ' :: b) = scanCount kw prv a + scanCount kw (some ' ') b :=
  scanCount_append_sep kw hkw hsp a.length a le_rfl prv b

theorem scanCount_joinSpace (kw : List Char) (hkw : kw ≠ []) (hsp : ' ' ∉ kw) :
    ∀ q : List (List Char),
      scanCount kw (some ' ') (joinSpace q) =
        (q.map fun cap => scanCount kw (some ' ') cap).sum
  | [] => rfl
  | [x] => by simp [joinSpace]
  | x :: y :: rest => by
      rw [joinSpace, scanCount_sep kw hkw hsp x (joinSpace (y :: rest)) (some ' '),
        scanCount_joinSpace kw hkw hsp (y :: rest)]
      simp [List.map_cons, List.sum_cons]

theorem countKeywords_decomp (kws : List (List Char))
    (hok : ∀ kw ∈ kws, kw ≠ [] ∧ ' ' ∉ kw) (input : GenerateRequest) :
    countKeywords (buildCorpus input false) kws =
      (kws.map fun kw =>
        scanCount kw none (jsToLower input.appName) +
          scanCount kw (some ' ') (jsToLower input.category) +
          ((input.screenshots.map jsToLower).map fun cap => scanCount kw (some ' ') cap).sum).sum := by
  rw [countKeywords]
  congr 1
  apply List.map_congr_left
  intro kw hkw
  obtain ⟨h1, h2⟩ := hok kw hkw
  rw [corpus_decomp, scanCount_sep kw h1 h2 (jsToLower input.appName) _ none,
    scanCount_sep kw h1 h2 (jsToLower input.category) _ (some ' '),
    scanCount_joinSpace kw h1 h2 (input.screenshots.map jsToLower)]
  omega

theorem lookup_mem {β : Type} :
    ∀ (l : List (List Char × β)) (k : List Char) (v : β),
      List.lookup k l = some v → (k, v) ∈ l
  | [], k, v, h => by simp at h
  | (k', v') :: rest, k, v, h => by
      rw [List.lookup] at h
      cases hbeq : (k == k') with
      | true =>
          rw [hbeq] at h
          have hk : k = k' := eq_of_beq hbeq
          have hv : v' = v := Option.some.inj h
          rw [hk, ← hv]
          exact List.mem_cons_self _ _
      | false =>
          rw [hbeq] at h
          exact List.mem_cons_of_mem _ (lookup_mem rest k v h)

theorem category_keywords_ok (key : List Char) :
    ∀ kw ∈ (List.lookup key CATEGORY_MAP).getD [], kw ≠ [] ∧ ' ' ∉ kw := by
  cases hl : List.lookup key CATEGORY_MAP with
  | none => simp
  | some v =>
      have hmem := lookup_mem CATEGORY_MAP key v hl
      have hall : ∀ pr ∈ CATEGORY_MAP, ∀ kw ∈ pr.2, kw ≠ [] ∧ ' ' ∉ kw := by decide
      simpa using hall (key, v) hmem

theorem countKeywords_perm (kws : List (List Char))
    (hok : ∀ kw ∈ kws, kw ≠ [] ∧ ' ' ∉ kw) (n cat : List Char) {p q : List (List Char)}
    (hpq : p.Perm q) :
    countKeywords (buildCorpus ⟨n, cat, p⟩ false) kws =
      countKeywords (buildCorpus ⟨n, cat, q⟩ false) kws := by
  rw [countKeywords_decomp kws hok ⟨n, cat, p⟩, countKeywords_decomp kws hok ⟨n, cat, q⟩]
  dsimp only
  congr 1
  apply List.map_congr_left
  intro kw _
  have hs := ((hpq.map jsToLower).map fun cap => scanCount kw (some ' ') cap).sum_eq
  omega

theorem splitWSAux_append_sep :
    ∀ (a : List Char) (acc b : List Char),
      splitWSAux acc (a ++ ' ' :: b) = splitWSAux acc a ++ splitWSAux [] b
  | [], acc, b => by
      rw [List.nil_append, splitWSAux, splitWSAux]
      have hs : isSpaceJS ' ' = true := rfl
      rw [hs]
      by_cases hacc : acc.isEmpty = true
      · simp [hacc]
      · simp [hacc]
  | c :: a', acc, b => by
      rw [List.cons_append, splitWSAux, splitWSAux]
      by_cases hc : isSpaceJS c = true
      · rw [if_pos hc, if_pos hc]
        by_cases hacc : acc.isEmpty = true
        · rw [if_pos hacc, if_pos hacc, splitWSAux_append_sep a' [] b]
        · rw [if_neg hacc, if_neg hacc, splitWSAux_append_sep a' [] b, List.cons_append]
      · rw [if_neg hc, if_neg hc, splitWSAux_append_sep a' (c :: acc) b]

theorem splitWS_sep (a b : List Char) : splitWS (a ++ ' ' :: b) = splitWS a ++ splitWS b :=
  splitWSAux_append_sep a [] b

theorem splitWS_joinSpace :
    ∀ q : List (List Char), splitWS (joinSpace q) = (q.map splitWS).flatten
  | [] => rfl
  | [x] => by simp [joinSpace]
  | x :: y :: rest => by
      rw [joinSpace, splitWS_sep, splitWS_joinSpace (y :: rest)]
      simp [List.map_cons, List.flatten_cons]

theorem extractWordsAux_append_sep :
    ∀ (a : List Char) (acc b : List Char),
      extractWordsAux acc (a ++ ' ' :: b) = extractWordsAux acc a ++ extractWordsAux [] b
  | [], acc, b => by
      rw [List.nil_append, extractWordsAux, extractWordsAux]
      have hs : isAlnumLower ' ' = false := rfl
      rw [hs]
      by_cases hacc : acc.isEmpty = true
      · simp [hacc]
      · simp [hacc]
  | c :: a', acc, b => by
      rw [List.cons_append, extractWordsAux, extractWordsAux]
      by_cases hc : isAlnumLower c = true
      · rw [if_pos hc, if_pos hc, extractWordsAux_append_sep a' (c :: acc) b]
      · rw [if_neg hc, if_neg hc]
        by_cases hacc : acc.isEmpty = true
        · rw [if_pos hacc, if_pos hacc, extractWordsAux_append_sep a' [] b]
        · rw [if_neg hacc, if_neg hacc, extractWordsAux_append_sep a' [] b, List.cons_append]

theorem extractWords_sep (a b : List Char) :
    extractWords (a ++ ' ' :: b) = extractWords a ++ extractWords b :=
  extractWordsAux_append_sep a [] b

theorem extractWords_joinSpace :
    ∀ q : List (List Char), extractWords (joinSpace q) = (q.map extractWords).flatten
  | [] => rfl
  | [x] => by simp [joinSpace]
  | x :: y :: rest => by
      rw [joinSpace, extractWords_sep, extractWords_joinSpace (y :: rest)]
      simp [List.map_cons, List.flatten_cons]

theorem punctCount_append (a b : List Char) :
    punctCount (a ++ b) = punctCount a + punctCount b :=
  List.countP_append _ _ _

theorem punctCount_space_cons (l : List Char) : punctCount (' ' :: l) = punctCount l := by
  rw [punctCount, List.countP_cons_of_neg]
  · rfl
  · decide

theorem punctCount_joinSpace :
    ∀ q : List (List Char), punctCount (joinSpace q) = (q.map punctCount).sum
  | [] => rfl
  | [x] => by simp [joinSpace]
  | x :: y :: rest => by
      rw [joinSpace, punctCount_append, punctCount_space_cons,
        punctCount_joinSpace (y :: rest)]
      simp [List.map_cons, List.sum_cons]

theorem hdp_cons_not (c : Char) (l : List Char) (h : isPunctJS c = false) :
    hasDoublePunct (c :: l) = hasDoublePunct l := by
  cases l with
  | nil => rfl
  | cons d t =>
      rw [hasDoublePunct, h, Bool.false_and, Bool.false_or]

theorem hdp_append_sep :
    ∀ (a b : List Char),
      hasDoublePunct (a ++ ' ' :: b) = (hasDoublePunct a || hasDoublePunct b)
  | [], b => by
      rw [List.nil_append, hdp_cons_not ' ' b rfl]
      rfl
  | [c], b => by
      rw [List.cons_append, List.nil_append, hasDoublePunct, hdp_cons_not ' ' b rfl]
      have hs : isPunctJS ' ' = false := rfl
      rw [hs, Bool.and_false, Bool.false_or]
      rfl
  | c :: d :: a', b => by
      rw [List.cons_append, List.cons_append, hasDoublePunct]
      have := hdp_append_sep (d :: a') b
      rw [List.cons_append] at this
      rw [this, hasDoublePunct, Bool.or_assoc]

theorem hdp_joinSpace :
    ∀ q : List (List Char), hasDoublePunct (joinSpace q) = q.any hasDoublePunct
  | [] => rfl
  | [x] => by simp [joinSpace]
  | x :: y :: rest => by
      rw [joinSpace, hdp_append_sep, hdp_joinSpace (y :: rest)]
      simp [List.any_cons]

theorem any_perm {α : Type} (f : α → Bool) {l₁ l₂ : List α} (h : l₁.Perm l₂) :
    l₁.any f = l₂.any f := by
  rw [Bool.eq_iff_iff]
  simp only [List.any_eq_true]
  constructor
  · rintro ⟨x, hx, hfx⟩
    exact ⟨x, h.mem_iff.mp hx, hfx⟩
  · rintro ⟨x, hx, hfx⟩
    exact ⟨x, h.mem_iff.mpr hx, hfx⟩

theorem flatten_perm {α : Type} {l₁ l₂ : List (List α)} (h : l₁.Perm l₂) :
    l₁.flatten.Perm l₂.flatten := by
  induction h with
  | nil => exact List.Perm.refl _
  | cons x h ih => simpa [List.flatten_cons] using ih.append_left x
  | swap x y l =>
      simp only [List.flatten_cons]
      rw [← List.append_assoc, ← List.append_assoc]
      exact (List.perm_append_comm).append_right _
  | trans h1 h2 ih1 ih2 => exact ih1.trans ih2

theorem splitWS_corpus (input : GenerateRequest) :
    splitWS (buildCorpus input false) =
      (splitWS (jsToLower input.appName) ++ splitWS (jsToLower input.category)) ++
        ((input.screenshots.map jsToLower).map splitWS).flatten := by
  rw [corpus_decomp, splitWS_sep, splitWS_sep, splitWS_joinSpace, List.append_assoc]

theorem extractWords_corpus (input : GenerateRequest) :
    extractWords (buildCorpus input false) =
      (extractWords (jsToLower input.appName) ++ extractWords (jsToLower input.category)) ++
        ((input.screenshots.map jsToLower).map extractWords).flatten := by
  rw [corpus_decomp, extractWords_sep, extractWords_sep, extractWords_joinSpace,
    List.append_assoc]

theorem splitWS_corpus_perm (n cat : List Char) {p q : List (List Char)} (hpq : p.Perm q) :
    (splitWS (buildCorpus ⟨n, cat, p⟩ false)).Perm
      (splitWS (buildCorpus ⟨n, cat, q⟩ false)) := by
  rw [splitWS_corpus, splitWS_corpus]
  dsimp only
  exact (flatten_perm ((hpq.map jsToLower).map splitWS)).append_left _

theorem extractWords_corpus_perm (n cat : List Char) {p q : List (List Char)}
    (hpq : p.Perm q) :
    (extractWords (buildCorpus ⟨n, cat, p⟩ false)).Perm
      (extractWords (buildCorpus ⟨n, cat, q⟩ false)) := by
  rw [extractWords_corpus, extractWords_corpus]
  dsimp only
  exact (flatten_perm ((hpq.map jsToLower).map extractWords)).append_left _

theorem punctCount_corpus (input : GenerateRequest) :
    punctCount (buildCorpus input false) =
      punctCount (jsToLower input.appName) + punctCount (jsToLower input.category) +
        ((input.screenshots.map jsToLower).map punctCount).sum := by
  rw [corpus_decomp, punctCount_append, punctCount_space_cons, punctCount_append,
    punctCount_space_cons, punctCount_joinSpace]
  omega

theorem punctCount_corpus_perm (n cat : List Char) {p q : List (List Char)}
    (hpq : p.Perm q) :
    punctCount (buildCorpus ⟨n, cat, p⟩ false) =
      punctCount (buildCorpus ⟨n, cat, q⟩ false) := by
  rw [punctCount_corpus, punctCount_corpus]
  dsimp only
  have hs := ((hpq.map jsToLower).map punctCount).sum_eq
  omega

theorem hdp_corpus (input : GenerateRequest) :
    hasDoublePunct (buildCorpus input false) =
      (hasDoublePunct (jsToLower input.appName) ||
        (hasDoublePunct (jsToLower input.category) ||
          (input.screenshots.map jsToLower).any hasDoublePunct)) := by
  rw [corpus_decomp, hdp_append_sep, hdp_append_sep, hdp_joinSpace]

theorem hdp_corpus_perm (n cat : List Char) {p q : List (List Char)} (hpq : p.Perm q) :
    hasDoublePunct (buildCorpus ⟨n, cat, p⟩ false) =
      hasDoublePunct (buildCorpus ⟨n, cat, q⟩ false) := by
  rw [hdp_corpus, hdp_corpus]
  dsimp only
  rw [any_perm hasDoublePunct (hpq.map jsToLower)]

theorem computeClarity_congr {c₁ c₂ : List Char} (htok : (splitWS c₁).Perm (splitWS c₂))
    (hp : punctCount c₁ = punctCount c₂) (hd : hasDoublePunct c₁ = hasDoublePunct c₂) :
    computeClarity c₁ = computeClarity c₂ := by
  have hlen : (splitWS c₁).length = (splitWS c₂).length := htok.length_eq
  have hsum : ((splitWS c₁).map List.length).sum = ((splitWS c₂).map List.length).sum :=
    (htok.map List.length).sum_eq
  have hany : ((splitWS c₁).any fun w => 24 < w.length) =
      ((splitWS c₂).any fun w => 24 < w.length) := any_perm _ htok
  simp only [computeClarity]
  rw [hlen, hp, hd, hsum, hany]

/-- C8 counterexample: swapping the first two captions of a six-caption input changes the
numeric sub-score, because a numeric match spans the junction between two captions in one
order but not in the other, so the result is not invariant under caption permutation. -/
theorem claim8_cx :
    exPermA.appName = exPermB.appName ∧ exPermA.category = exPermB.category ∧
    exPermA.screenshots.Perm exPermB.screenshots ∧
    (scoreCopy exPermA).breakdown.numeric ≠ (scoreCopy exPermB).breakdown.numeric := by
  refine ⟨rfl, rfl, by decide, ?_⟩
  rw [scoreCopy_exec, scoreCopy_exec]
  decide

/-- C8 as amended: for every app name, category and caption lists related by a
permutation, the cta, benefit, clarity, emotion and category sub-scores are identical;
the numeric sub-score, and with it the score and the recommendation list, can differ. -/
theorem claim8_amended (n cat : List Char) (p q : List (List Char)) (hpq : p.Perm q) :
    (scoreCopy ⟨n, cat, p⟩).breakdown.cta = (scoreCopy ⟨n, cat, q⟩).breakdown.cta ∧
    (scoreCopy ⟨n, cat, p⟩).breakdown.benefit = (scoreCopy ⟨n, cat, q⟩).breakdown.benefit ∧
    (scoreCopy ⟨n, cat, p⟩).breakdown.clarity = (scoreCopy ⟨n, cat, q⟩).breakdown.clarity ∧
    (scoreCopy ⟨n, cat, p⟩).breakdown.emotion = (scoreCopy ⟨n, cat, q⟩).breakdown.emotion ∧
    (scoreCopy ⟨n, cat, p⟩).breakdown.category =
      (scoreCopy ⟨n, cat, q⟩).breakdown.category := by
  have hCTA := countKeywords_perm CTA_KEYWORDS (by decide) n cat hpq
  have hBEN := countKeywords_perm BENEFIT_KEYWORDS (by decide) n cat hpq
  have hEMO := countKeywords_perm EMOTION_KEYWORDS (by decide) n cat hpq
  have hW : (extractWords (buildCorpus ⟨n, cat, p⟩ false)).length =
      (extractWords (buildCorpus ⟨n, cat, q⟩ false)).length :=
    (extractWords_corpus_perm n cat hpq).length_eq
  have hTOK := splitWS_corpus_perm n cat hpq
  have hP := punctCount_corpus_perm n cat hpq
  have hD := hdp_corpus_perm n cat hpq
  refine ⟨?_, ?_, ?_, ?_, ?_⟩
  · rw [scoreCopy_cta, scoreCopy_cta]
    rw [hCTA]
  · rw [scoreCopy_benefit, scoreCopy_benefit]
    rw [hBEN, hW]
  · rw [scoreCopy_clarity, scoreCopy_clarity]
    exact computeClarity_congr hTOK hP hD
  · rw [scoreCopy_emotion, scoreCopy_emotion]
    rw [hEMO]
  · have hCAT := countKeywords_perm
      ((List.lookup (jsToLower (trimChars cat)) CATEGORY_MAP).getD [])
      (category_keywords_ok _) n cat hpq
    rw [scoreCopy_category, scoreCopy_category]
    dsimp only
    rw [hCAT, hW]

/-- C8 witness: the amended statement instantiated at a six-caption input and a
permutation of its captions. -/
theorem claim8_witness :
    (scoreCopy ⟨str "x", str "productivity",
        [str "aa", str "bb", str "cc", str "dd", str "ee", str "ff"]⟩).breakdown.cta =
      (scoreCopy ⟨str "x", str "productivity",
        [str "ff", str "aa", str "bb", str "cc", str "dd", str "ee"]⟩).breakdown.cta ∧
    (scoreCopy ⟨str "x", str "productivity",
        [str "aa", str "bb", str "cc", str "dd", str "ee", str "ff"]⟩).breakdown.benefit =
      (scoreCopy ⟨str "x", str "productivity",
        [str "ff", str "aa", str "bb", str "cc", str "dd", str "ee"]⟩).breakdown.benefit ∧
    (scoreCopy ⟨str "x", str "productivity",
        [str "aa", str "bb", str "cc", str "dd", str "ee", str "ff"]⟩).breakdown.clarity =
      (scoreCopy ⟨str "x", str "productivity",
        [str "ff", str "aa", str "bb", str "cc", str "dd", str "ee"]⟩).breakdown.clarity ∧
    (scoreCopy ⟨str "x", str "productivity",
        [str "aa", str "bb", str "cc", str "dd", str "ee", str "ff"]⟩).breakdown.emotion =
      (scoreCopy ⟨str "x", str "productivity",
        [str "ff", str "aa", str "bb", str "cc", str "dd", str "ee"]⟩).breakdown.emotion ∧
    (scoreCopy ⟨str "x", str "productivity",
        [str "aa", str "bb", str "cc", str "dd", str "ee", str "ff"]⟩).breakdown.category =
      (scoreCopy ⟨str "x", str "productivity",
        [str "ff", str "aa", str "bb", str "cc", str "dd", str "ee"]⟩).breakdown.category :=
  claim8_amended (str "x") (str "productivity")
    [str "aa", str "bb", str "cc", str "dd", str "ee", str "ff"]
    [str "ff", str "aa", str "bb", str "cc", str "dd", str "ee"] (by decide)

end ASO
